import Mathlib

/-!
# Verification of the navbat queue/booking engine

Shallow embedding of the core of `navbat.py`: the SQLite-backed store
(providers, services, queues, busy_times) and the operations the bot's
handlers perform on it.  Lists model tables in rowid (insertion) order;
`Option String` models nullable TEXT columns; SQLite's `ORDER BY ... LIMIT 1`
is modelled by a first-minimum selection and `ORDER BY` by a sort consistent
with the same key (SQLite leaves tie order unspecified).
-/

namespace Navbat

/-- Row of the `providers` table. -/
structure ProviderRow where
  id : Nat
  ownerId : Nat
  name : String
  refCode : String
deriving DecidableEq, Repr

/-- Row of the `services` table. -/
structure ServiceRow where
  id : Nat
  providerId : Nat
  name : String
deriving DecidableEq, Repr

/-- Row of the `queues` table.  `date`/`time` are nullable TEXT columns. -/
structure QueueRow where
  id : Nat
  providerId : Nat
  userId : Nat
  serviceId : Nat
  position : Nat
  date : Option String
  time : Option String
deriving DecidableEq, Repr

/-- Row of the `busy_times` table. -/
structure BusyRow where
  id : Nat
  providerId : Nat
  date : String
  time : String
deriving DecidableEq, Repr

/-- The whole SQLite database.  The `next*Id` counters model the
`AUTOINCREMENT` primary keys. -/
structure Store where
  providers : List ProviderRow
  services : List ServiceRow
  queues : List QueueRow
  busyTimes : List BusyRow
  nextProviderId : Nat
  nextServiceId : Nat
  nextQueueId : Nat
  nextBusyId : Nat
deriving DecidableEq, Repr

/-- Python truthiness of an optional string (`if date and time:`):
`None` and the empty string are falsy. -/
def truthy : Option String → Bool
  | none => false
  | some s => !(s == "")

/-- SQLite comparison `a < b` on a nullable TEXT column: NULL sorts before
every string, strings compare by byte order (for the ASCII dates/times used
here this is Lean's lexicographic `String` order). -/
def optStrLtB : Option String → Option String → Bool
  | none, none => false
  | none, some _ => true
  | some _, none => false
  | some a, some b => decide (a < b)

/-- Key comparison for `ORDER BY position ASC` (walk-in pop). -/
def walkInLtB (a b : QueueRow) : Bool :=
  decide (a.position < b.position)

/-- Key comparison for `ORDER BY date, time ASC` (scheduled pop). -/
def schedLtB (a b : QueueRow) : Bool :=
  optStrLtB a.date b.date || (a.date == b.date && optStrLtB a.time b.time)

/-- The scan `selectMinAux lt b l` walks `l` keeping the current best `b`, replacing it
only when a strictly smaller element appears; hence it returns the first
minimum in scan order, as SQLite's `ORDER BY key LIMIT 1` does over a table
scan in rowid order. -/
def selectMinAux (lt : α → α → Bool) (b : α) : List α → α
  | [] => b
  | y :: ys => selectMinAux lt (if lt y b then y else b) ys

/-- Model of `SELECT ... ORDER BY key ASC LIMIT 1` over a list of candidate rows. -/
def selectMin (lt : α → α → Bool) : List α → Option α
  | [] => none
  | x :: xs => some (selectMinAux lt x xs)

theorem selectMinAux_mem (lt : α → α → Bool) (b : α) (l : List α) :
    selectMinAux lt b l ∈ b :: l := by
  induction l generalizing b with
  | nil => simp [selectMinAux]
  | cons y ys ih =>
    simp only [selectMinAux]
    rcases List.mem_cons.mp (ih (if lt y b then y else b)) with h | h
    · rw [h]
      by_cases hyb : lt y b = true
      · rw [if_pos hyb]
        exact List.mem_cons_of_mem _ (List.mem_cons_self _ _)
      · rw [if_neg hyb]
        exact List.mem_cons_self _ _
    · exact List.mem_cons_of_mem _ (List.mem_cons_of_mem _ h)

theorem selectMin_mem {lt : α → α → Bool} {l : List α} {m : α}
    (h : selectMin lt l = some m) : m ∈ l := by
  cases l with
  | nil => simp [selectMin] at h
  | cons x xs =>
    simp only [selectMin, Option.some.injEq] at h
    subst h
    exact selectMinAux_mem lt x xs

theorem selectMin_eq_none {lt : α → α → Bool} {l : List α} :
    selectMin lt l = none ↔ l = [] := by
  cases l <;> simp [selectMin]

theorem selectMinAux_min (lt : α → α → Bool)
    (hirr : ∀ a, lt a a = false)
    (hasym : ∀ a b, lt a b = true → lt b a = false)
    (hneg : ∀ a b c, lt a b = false → lt b c = false → lt a c = false)
    (l : List α) :
    ∀ b, ∀ x ∈ b :: l, lt x (selectMinAux lt b l) = false := by
  induction l with
  | nil =>
    intro b x hx
    have hxb : x = b := by simpa using hx
    rw [hxb]
    simpa [selectMinAux] using hirr b
  | cons y ys ih =>
    intro b x hx
    simp only [selectMinAux]
    by_cases hyb : lt y b = true
    · rw [if_pos hyb]
      rcases List.mem_cons.mp hx with hxb | hx'
      · have h1 : lt x y = false := by rw [hxb]; exact hasym y b hyb
        have h2 : lt y (selectMinAux lt y ys) = false :=
          ih y y (List.mem_cons_self y ys)
        exact hneg x y _ h1 h2
      · rcases List.mem_cons.mp hx' with hxy | hxys
        · rw [hxy]
          exact ih y y (List.mem_cons_self y ys)
        · exact ih y x (List.mem_cons_of_mem y hxys)
    · rw [if_neg hyb]
      rcases List.mem_cons.mp hx with hxb | hx'
      · rw [hxb]
        exact ih b b (List.mem_cons_self b ys)
      · rcases List.mem_cons.mp hx' with hxy | hxys
        · have h1 : lt x b = false := by rw [hxy]; simpa using hyb
          have h2 : lt b (selectMinAux lt b ys) = false :=
            ih b b (List.mem_cons_self b ys)
          exact hneg x b _ h1 h2
        · exact ih b x (List.mem_cons_of_mem b hxys)

theorem selectMin_min {lt : α → α → Bool}
    (hirr : ∀ a, lt a a = false)
    (hasym : ∀ a b, lt a b = true → lt b a = false)
    (hneg : ∀ a b c, lt a b = false → lt b c = false → lt a c = false)
    {l : List α} {m : α} (h : selectMin lt l = some m) :
    ∀ x ∈ l, lt x m = false := by
  cases l with
  | nil => simp [selectMin] at h
  | cons x xs =>
    simp only [selectMin, Option.some.injEq] at h
    subst h
    exact selectMinAux_min lt hirr hasym hneg xs x

/-! ## Order properties of the comparison keys -/

theorem optStrLtB_irrefl (a : Option String) : optStrLtB a a = false := by
  cases a with
  | none => rfl
  | some s => simp [optStrLtB]

theorem optStrLtB_asym (a b : Option String) :
    optStrLtB a b = true → optStrLtB b a = false := by
  cases a <;> cases b <;> simp [optStrLtB]
  intro h
  exact le_of_lt h

theorem optStrLtB_neg_trans (a b c : Option String) :
    optStrLtB a b = false → optStrLtB b c = false → optStrLtB a c = false := by
  cases a <;> cases b <;> cases c <;> simp [optStrLtB]
  intro h1 h2
  exact le_trans h2 h1

theorem optStrLtB_trichotomy (a b : Option String) :
    optStrLtB a b = true ∨ a = b ∨ optStrLtB b a = true := by
  cases a with
  | none =>
    cases b with
    | none => exact Or.inr (Or.inl rfl)
    | some t => exact Or.inl rfl
  | some s =>
    cases b with
    | none => exact Or.inr (Or.inr rfl)
    | some t =>
      rcases lt_trichotomy s t with h | h | h
      · exact Or.inl (show decide (s < t) = true from decide_eq_true h)
      · exact Or.inr (Or.inl (by rw [h]))
      · exact Or.inr (Or.inr (show decide (t < s) = true from decide_eq_true h))

theorem walkInLtB_irrefl (a : QueueRow) : walkInLtB a a = false := by
  simp [walkInLtB]

theorem walkInLtB_asym (a b : QueueRow) :
    walkInLtB a b = true → walkInLtB b a = false := by
  simp [walkInLtB]; omega

theorem walkInLtB_neg_trans (a b c : QueueRow) :
    walkInLtB a b = false → walkInLtB b c = false → walkInLtB a c = false := by
  simp [walkInLtB]; omega

theorem schedLtB_irrefl (a : QueueRow) : schedLtB a a = false := by
  simp [schedLtB, optStrLtB_irrefl]

theorem schedLtB_asym (a b : QueueRow) :
    schedLtB a b = true → schedLtB b a = false := by
  simp only [schedLtB, Bool.or_eq_true, Bool.and_eq_true, beq_iff_eq,
    Bool.or_eq_false_iff, Bool.and_eq_false_iff, beq_eq_false_iff_ne, ne_eq]
  intro h
  constructor
  · rcases h with h | ⟨he, _⟩
    · exact optStrLtB_asym _ _ h
    · rw [he]; exact optStrLtB_irrefl _
  · rcases h with h | ⟨he, ht⟩
    · left
      intro hba
      rw [hba] at h
      simp [optStrLtB_irrefl] at h
    · right
      exact optStrLtB_asym _ _ ht

theorem schedLtB_neg_trans (a b c : QueueRow) :
    schedLtB a b = false → schedLtB b c = false → schedLtB a c = false := by
  simp only [schedLtB, Bool.or_eq_false_iff, Bool.and_eq_false_iff,
    beq_eq_false_iff_ne, ne_eq]
  intro h1 h2
  obtain ⟨hd1, hdt1⟩ := h1
  obtain ⟨hd2, hdt2⟩ := h2
  refine ⟨optStrLtB_neg_trans _ _ _ hd1 hd2, ?_⟩
  rcases hdt1 with hne1 | ht1
  · -- a.date ≠ b.date; with ¬(a.date < b.date) trichotomy gives b.date < a.date
    rcases optStrLtB_trichotomy a.date b.date with h | h | h
    · simp [h] at hd1
    · exact absurd h hne1
    · -- b.date < a.date and ¬(b.date < c.date): show a.date ≠ c.date
      left
      intro hac
      rw [hac] at h
      simp [h] at hd2
  · rcases hdt2 with hne2 | ht2
    · rcases optStrLtB_trichotomy b.date c.date with h | h | h
      · simp [h] at hd2
      · exact absurd h hne2
      · left
        intro hac
        rw [← hac] at h
        simp [h] at hd1
    · exact Or.inr (optStrLtB_neg_trans _ _ _ ht1 ht2)

/-! ## Database operations (translated from `navbat.py`) -/

/-- Model of `get_provider_by_owner`: `SELECT id, name, ref_code FROM providers WHERE
owner_id=?` (first row). -/
def get_provider_by_owner (s : Store) (ownerId : Nat) : Option ProviderRow :=
  s.providers.find? (fun p => p.ownerId == ownerId)

/-- Model of `get_provider_by_ref`: `SELECT id, name FROM providers WHERE ref_code=?`. -/
def get_provider_by_ref (s : Store) (ref : String) : Option ProviderRow :=
  s.providers.find? (fun p => p.refCode == ref)

/-- Model of `get_provider_owner`: `SELECT owner_id FROM providers WHERE id=?`. -/
def get_provider_owner (s : Store) (pid : Nat) : Option Nat :=
  (s.providers.find? (fun p => p.id == pid)).map (·.ownerId)

/-- Model of `create_provider`: unconditionally inserts a provider row.  The
`ref_code` (a uuid4 prefix in the source) is taken as a parameter. -/
def create_provider (s : Store) (ownerId : Nat) (name ref : String) : Store :=
  { s with
    providers := s.providers ++ [⟨s.nextProviderId, ownerId, name, ref⟩]
    nextProviderId := s.nextProviderId + 1 }

/-- Outcome of the two-step registration conversation. -/
inductive RegisterResult where
  | alreadyRegistered
  | registered (ref : String)
deriving DecidableEq, Repr

/-- The registration flow as one logical operation:  `register_start`
rejects when `get_provider_by_owner` finds an existing provider for the
caller; otherwise `register_finish` calls `create_provider`. -/
def register_provider (s : Store) (ownerId : Nat) (name ref : String) :
    RegisterResult × Store :=
  match get_provider_by_owner s ownerId with
  | some _ => (.alreadyRegistered, s)
  | none => (.registered ref, create_provider s ownerId name ref)

/-- Model of `COALESCE(MAX(position), 0)` over
`queues WHERE provider_id=? AND position>0`. -/
def maxWalkInPos (qs : List QueueRow) (pid : Nat) : Nat :=
  (qs.filter (fun r => r.providerId == pid && decide (0 < r.position))).foldl
    (fun m r => max m r.position) 0

/-- Model of `add_to_queue`: with a truthy date and time inserts a scheduled row
(`position = 0`) and returns 0; otherwise inserts a walk-in row at
`MAX(position)+1` with NULL date/time and returns the new position. -/
def add_to_queue (s : Store) (pid userId serviceId : Nat)
    (date time : Option String) : Nat × Store :=
  if truthy date && truthy time then
    (0, { s with
      queues := s.queues ++ [⟨s.nextQueueId, pid, userId, serviceId, 0, date, time⟩]
      nextQueueId := s.nextQueueId + 1 })
  else
    let nextPos := maxWalkInPos s.queues pid + 1
    (nextPos, { s with
      queues := s.queues ++ [⟨s.nextQueueId, pid, userId, serviceId, nextPos, none, none⟩]
      nextQueueId := s.nextQueueId + 1 })

/-- Model of `pop_next_in_queue`: with `include_scheduled=False` selects the provider's
row with minimal `position` among rows with `position>0`; with
`include_scheduled=True` selects the provider's row minimal by
`(date, time)` (NULLs first) over ALL of its rows.  The selected row is
deleted (`DELETE FROM queues WHERE id=?`) and returned. -/
def pop_next_in_queue (s : Store) (pid : Nat) (includeScheduled : Bool) :
    Option QueueRow × Store :=
  match
    (if includeScheduled then
      selectMin schedLtB (s.queues.filter (fun r => r.providerId == pid))
    else
      selectMin walkInLtB
        (s.queues.filter (fun r => r.providerId == pid && decide (0 < r.position)))) with
  | some r => (some r, { s with queues := s.queues.filter (fun x => !(x.id == r.id)) })
  | none => (none, s)

/-- Result reported by the "call next client" handler. -/
inductive CallNextResult where
  | walkIn (userId serviceId : Nat)
  | scheduled (userId serviceId : Nat) (date time : Option String)
  | emptyQueue
deriving DecidableEq, Repr

/-- Core of the `call_next` handler: first pop a walk-in; if none, pop a scheduled
entry; if none either, report an empty queue. -/
def call_next (s : Store) (pid : Nat) : CallNextResult × Store :=
  match pop_next_in_queue s pid false with
  | (some r, s1) => (.walkIn r.userId r.serviceId, s1)
  | (none, _) =>
    match pop_next_in_queue s pid true with
    | (some r, s2) => (.scheduled r.userId r.serviceId r.date r.time, s2)
    | (none, s2) => (.emptyQueue, s2)

/-- Total order used by `show_queue`'s
`ORDER BY position ASC, date, time ASC` (NULLs sort first). -/
def showQueueLe (a b : QueueRow) : Prop :=
  (decide (a.position < b.position) ||
    (a.position == b.position &&
      (optStrLtB a.date b.date ||
        (a.date == b.date && (optStrLtB a.time b.time || a.time == b.time))))) = true

instance : DecidableRel showQueueLe := fun a b => by
  unfold showQueueLe
  infer_instance

/-- Model of `show_queue` ("👥 Navbatdagilar"): `SELECT ... FROM queues WHERE
provider_id=? ORDER BY position ASC, date, time ASC`.  SQLite leaves tie
order unspecified; any sort consistent with the key is a faithful model. -/
def show_queue (s : Store) (pid : Nat) : List QueueRow :=
  List.insertionSort showQueueLe (s.queues.filter (fun r => r.providerId == pid))

/-- Model of `clear_queue` ("❌ Navbatni boʻshatish"):
`DELETE FROM queues WHERE provider_id=?`. -/
def clear_queue (s : Store) (pid : Nat) : Store :=
  { s with queues := s.queues.filter (fun r => !(r.providerId == pid)) }

/-- Model of `delete_provider` with SQLite's `ON DELETE CASCADE` (enabled by
`PRAGMA foreign_keys=ON`): deleting provider `pid` removes its services and
busy blocks, and removes a queue row when it references the provider
directly or references one of the deleted services. -/
def delete_provider (s : Store) (pid : Nat) : Store :=
  let deadServices := s.services.filter (fun sv => sv.providerId == pid)
  { s with
    providers := s.providers.filter (fun p => !(p.id == pid))
    services := s.services.filter (fun sv => !(sv.providerId == pid))
    queues := s.queues.filter (fun q =>
      !(q.providerId == pid) && !(deadServices.any (fun sv => sv.id == q.serviceId)))
    busyTimes := s.busyTimes.filter (fun b => !(b.providerId == pid)) }

/-- Model of `add_busy_time`: inserts a busy block and returns `last_insert_rowid()`. -/
def add_busy_time (s : Store) (pid : Nat) (d t : String) : Nat × Store :=
  (s.nextBusyId,
    { s with
      busyTimes := s.busyTimes ++ [⟨s.nextBusyId, pid, d, t⟩]
      nextBusyId := s.nextBusyId + 1 })

/-- Model of `remove_busy_time`: `DELETE FROM busy_times WHERE id=?` — no provider
check at all. -/
def remove_busy_time (s : Store) (busyId : Nat) : Store :=
  { s with busyTimes := s.busyTimes.filter (fun b => !(b.id == busyId)) }

/-- Outcome of the `delbusy:` callback handler. -/
inductive DeleteBusyResult where
  | notAuthorized
  | deleted
deriving DecidableEq, Repr

/-- Model of `admin_delete_busy`: the callback payload carries `(busy_id, pid)`.  The
caller is checked against the owner of `pid` only; on success
`remove_busy_time busy_id` runs with no check that the block belongs to
`pid`. -/
def admin_delete_busy (s : Store) (caller busyId pid : Nat) :
    DeleteBusyResult × Store :=
  match get_provider_owner s pid with
  | some owner =>
    if owner == caller then (.deleted, remove_busy_time s busyId)
    else (.notAuthorized, s)
  | none => (.notAuthorized, s)

/-- Model of `get_booked_slots`: times of the provider's scheduled queue rows on the
given date plus its busy-block times on that date.  The source returns
`list(set(booked + busy))`; this list has the same membership (the claims
only use membership). -/
def get_booked_slots (s : Store) (pid : Nat) (d : String) : List String :=
  (s.queues.filterMap (fun r =>
    if r.providerId == pid && r.date == some d && !(r.time == none)
    then r.time else none)) ++
  ((s.busyTimes.filter (fun b => b.providerId == pid && b.date == d)).map (·.time))

/-- Model of `f"{h:02d}"` for the hour values used by the slot grid. -/
def two_digit (n : Nat) : String :=
  if n < 10 then "0" ++ toString n else toString n

/-- The fixed daily slot grid of `client_pick_date`:
`for h in range(9, 18): slots += [f"{h:02d}:00", f"{h:02d}:30"]` followed by
`slots[:-1]`. -/
def slotGrid : List String :=
  ((List.range' 9 9).flatMap (fun h => [two_digit h ++ ":00", two_digit h ++ ":30"])).dropLast

/-- Model of the `client_pick_date` availability computation:
`[s for s in slots if s not in blocked]`. -/
def client_pick_date (s : Store) (pid : Nat) (d : String) : List String :=
  slotGrid.filter (fun t => !((get_booked_slots s pid d).contains t))

/-- Outcome of the `book:` callback handler. -/
inductive BookResult where
  | slotConflict
  | booked
deriving DecidableEq, Repr

/-- Model of `client_book_slot`: re-checks `get_booked_slots` at commit time; on
conflict answers "allaqon band" and inserts nothing, otherwise inserts the
scheduled entry via `add_to_queue`. -/
def client_book_slot (s : Store) (pid userId serviceId : Nat) (d t : String) :
    BookResult × Store :=
  if (get_booked_slots s pid d).contains t then (.slotConflict, s)
  else (.booked, (add_to_queue s pid userId serviceId (some d) (some t)).2)

/-! ## Helper lemmas -/

theorem le_foldl_maxPos (l : List QueueRow) (acc : Nat) :
    acc ≤ l.foldl (fun m r => max m r.position) acc := by
  induction l generalizing acc with
  | nil => simp
  | cons y ys ih => exact le_trans (le_max_left _ _) (ih _)

theorem mem_le_foldl_maxPos {r : QueueRow} {l : List QueueRow} (h : r ∈ l)
    (acc : Nat) : r.position ≤ l.foldl (fun m r => max m r.position) acc := by
  induction l generalizing acc with
  | nil => simp at h
  | cons y ys ih =>
    rcases List.mem_cons.mp h with h1 | h2
    · rw [h1]
      exact le_trans (le_max_right acc y.position) (le_foldl_maxPos ys _)
    · exact ih h2 _

theorem mem_le_maxWalkInPos {s : Store} {pid : Nat} {e : QueueRow}
    (he : e ∈ s.queues) (hpid : e.providerId = pid) (hpos : 0 < e.position) :
    e.position ≤ maxWalkInPos s.queues pid := by
  have : e ∈ s.queues.filter (fun r => r.providerId == pid && decide (0 < r.position)) :=
    List.mem_filter.mpr ⟨he, by simp [hpid, hpos]⟩
  exact mem_le_foldl_maxPos this 0

/-! ## Claim C3 -/

/-- Concrete store: one registered provider (id 1) with one service (id 5). -/
def c3Store : Store := ⟨[⟨1, 100, "P", "r"⟩], [⟨5, 1, "Haircut"⟩], [], [], 2, 6, 1, 1⟩

/-- C3 counterexample: walk-in positions ARE reused after pops.  Enqueuing a
walk-in into an empty queue assigns position 1; after popping it, the next
walk-in is assigned position 1 again (the `MAX(position)` is computed from
the remaining rows, which are gone). -/
theorem c3_counterexample :
    (add_to_queue c3Store 1 10 5 none none).1 = 1 ∧
    (add_to_queue
        (pop_next_in_queue (add_to_queue c3Store 1 10 5 none none).2 1 false).2
        1 11 5 none none).1 = 1 := by decide

/-- C3 (amended): each walk-in position assigned by `add_to_queue` equals
`1 + max(positions of the provider's walk-in entries currently in the queue,
default 0)`, and is therefore strictly greater than every walk-in position
currently in the queue — but (per the counterexample) a position may be
assigned again once the entry holding it has been popped. -/
theorem c3_walkin_position_fresh (s : Store) (pid userId serviceId : Nat) :
    (add_to_queue s pid userId serviceId none none).1 =
      maxWalkInPos s.queues pid + 1 ∧
    ∀ e ∈ s.queues, e.providerId = pid → 0 < e.position →
      e.position < (add_to_queue s pid userId serviceId none none).1 := by
  constructor
  · simp [add_to_queue, truthy]
  · intro e he hpid hpos
    have h1 : e.position ≤ maxWalkInPos s.queues pid :=
      mem_le_maxWalkInPos he hpid hpos
    simp only [add_to_queue, truthy, Bool.false_and, Bool.false_eq_true, if_false]
    omega

/-- C3 witness: the amended theorem applied to a concrete store. -/
theorem c3_walkin_position_fresh_witness :
    (add_to_queue c3Store 1 10 5 none none).1 = maxWalkInPos c3Store.queues 1 + 1 ∧
    ∀ e ∈ c3Store.queues, e.providerId = 1 → 0 < e.position →
      e.position < (add_to_queue c3Store 1 10 5 none none).1 :=
  c3_walkin_position_fresh c3Store 1 10 5

/-! ## Claim C4 -/

/-- C4: `client_book_slot` fails with a slot conflict exactly when the
requested time is in `get_booked_slots` at commit time (the check is re-run
inside the booking handler, on the store as it is at commit), and on a
conflict the store is left completely unchanged. -/
theorem c4_book_conflict_iff (s : Store) (pid userId serviceId : Nat)
    (d t : String) :
    ((client_book_slot s pid userId serviceId d t).1 = .slotConflict ↔
      t ∈ get_booked_slots s pid d) ∧
    (t ∈ get_booked_slots s pid d →
      (client_book_slot s pid userId serviceId d t).2 = s) := by
  by_cases h : t ∈ get_booked_slots s pid d
  · have hc : (get_booked_slots s pid d).contains t = true := by
      simpa using h
    refine ⟨?_, fun _ => ?_⟩ <;> simp [client_book_slot, hc, h]
  · have hc : (get_booked_slots s pid d).contains t = false := by
      simpa using h
    refine ⟨?_, fun ht => absurd ht h⟩
    simp [client_book_slot, hc, h]

/-- C4 witness: with "10:00" on 2025-08-25 already booked, a second booking
for the same slot conflicts and leaves the store unchanged. -/
theorem c4_book_conflict_iff_witness :
    (((client_book_slot
          (client_book_slot c3Store 1 30 5 "2025-08-25" "10:00").2
          1 31 5 "2025-08-25" "10:00").1 = .slotConflict ↔
        "10:00" ∈ get_booked_slots
          (client_book_slot c3Store 1 30 5 "2025-08-25" "10:00").2 1 "2025-08-25") ∧
      ("10:00" ∈ get_booked_slots
          (client_book_slot c3Store 1 30 5 "2025-08-25" "10:00").2 1 "2025-08-25" →
        (client_book_slot
          (client_book_slot c3Store 1 30 5 "2025-08-25" "10:00").2
          1 31 5 "2025-08-25" "10:00").2 =
          (client_book_slot c3Store 1 30 5 "2025-08-25" "10:00").2)) ∧
    "10:00" ∈ get_booked_slots
      (client_book_slot c3Store 1 30 5 "2025-08-25" "10:00").2 1 "2025-08-25" :=
  ⟨c4_book_conflict_iff _ 1 31 5 "2025-08-25" "10:00", by decide⟩

/-! ## Claim C7 -/

/-- Number of provider records owned by `o`. -/
def ownedCount (s : Store) (o : Nat) : Nat :=
  (s.providers.filter (fun p => p.ownerId == o)).length

/-- C7: if the owner already owns a provider record, the registration flow
reports "already registered" and creates nothing; and registration keeps the
"at most one provider per owner" invariant. -/
theorem c7_register_already (s : Store) (o : Nat) (name ref : String)
    (hreg : get_provider_by_owner s o ≠ none)
    (hinv : ∀ w, ownedCount s w ≤ 1) :
    (register_provider s o name ref).1 = .alreadyRegistered ∧
    (register_provider s o name ref).2 = s ∧
    ∀ o2, ∀ n2 r2 : String, ∀ w,
      ownedCount (register_provider s o2 n2 r2).2 w ≤ 1 := by
  refine ⟨?_, ?_, ?_⟩
  · cases hfind : get_provider_by_owner s o with
    | none => exact absurd hfind hreg
    | some p => simp [register_provider, hfind]
  · cases hfind : get_provider_by_owner s o with
    | none => exact absurd hfind hreg
    | some p => simp [register_provider, hfind]
  · intro o2 n2 r2 w
    cases hfind : get_provider_by_owner s o2 with
    | some p => simpa [register_provider, hfind] using hinv w
    | none =>
      simp only [register_provider, hfind, create_provider]
      by_cases hw : w = o2
      · subst hw
        have hfe : s.providers.filter (fun p => p.ownerId == w) = [] := by
          rw [List.filter_eq_nil_iff]
          intro p hp
          simpa using List.find?_eq_none.mp hfind p hp
        simp only [ownedCount, List.filter_append, hfe]
        simp [List.filter]
      · have hnew :
            List.filter (fun p => p.ownerId == w)
              [(⟨s.nextProviderId, o2, n2, r2⟩ : ProviderRow)] = [] := by
          rw [List.filter_eq_nil_iff]
          intro p hp
          simp only [List.mem_singleton] at hp
          rw [hp]
          simp
          omega
        simp only [ownedCount, List.filter_append, hnew, List.append_nil]
        exact hinv w


theorem filter_singleton_length_le_one (p : ProviderRow → Bool) (x : ProviderRow) :
    (List.filter p [x]).length ≤ 1 := by
  cases h : p x <;> simp [List.filter, h]

/-- C7 witness: registering again with an existing provider fails and the
invariant holds. -/
theorem c7_register_already_witness :
    (register_provider c3Store 100 "Q" "r2").1 = .alreadyRegistered ∧
    (register_provider c3Store 100 "Q" "r2").2 = c3Store ∧
    ∀ o2, ∀ n2 r2 : String, ∀ w,
      ownedCount (register_provider c3Store o2 n2 r2).2 w ≤ 1 :=
  c7_register_already c3Store 100 "Q" "r2" (by decide) (fun w =>
    filter_singleton_length_le_one (fun p => p.ownerId == w) ⟨1, 100, "P", "r"⟩)

/-! ## Claim C10 -/

/-- C10: the `delbusy` callback authorizes the caller against the provider id
carried in the payload only, then deletes the busy block by id with no check
that the block belongs to that provider: a caller owning provider `pid`
deletes a busy block that belongs to a different provider. -/
theorem c10_delete_busy_cross_provider (s : Store) (caller busyId pid : Nat)
    (hown : get_provider_owner s pid = some caller)
    (b : BusyRow) (_hb : b ∈ s.busyTimes) (hid : b.id = busyId)
    (_hq : b.providerId ≠ pid) :
    (admin_delete_busy s caller busyId pid).1 = .deleted ∧
    b ∉ (admin_delete_busy s caller busyId pid).2.busyTimes := by
  have hres : admin_delete_busy s caller busyId pid =
      (.deleted, remove_busy_time s busyId) := by
    simp [admin_delete_busy, hown]
  rw [hres]
  refine ⟨rfl, ?_⟩
  intro hmem
  simp only [remove_busy_time, List.mem_filter] at hmem
  have := hmem.2
  simp [hid] at this

/-- C10 witness: provider 1 (owner 100) deletes busy block id 9 that belongs
to provider 2. -/
theorem c10_delete_busy_cross_provider_witness :
    (admin_delete_busy
        ⟨[⟨1, 100, "P", "r"⟩, ⟨2, 200, "Q", "r2"⟩], [], [],
          [⟨9, 2, "2025-08-25", "10:00"⟩], 3, 1, 1, 10⟩ 100 9 1).1 = .deleted ∧
    (⟨9, 2, "2025-08-25", "10:00"⟩ : BusyRow) ∉
      (admin_delete_busy
        ⟨[⟨1, 100, "P", "r"⟩, ⟨2, 200, "Q", "r2"⟩], [], [],
          [⟨9, 2, "2025-08-25", "10:00"⟩], 3, 1, 1, 10⟩ 100 9 1).2.busyTimes :=
  c10_delete_busy_cross_provider _ 100 9 1 (by decide)
    ⟨9, 2, "2025-08-25", "10:00"⟩ (by decide) (by decide) (by decide)

/-! ## Claim C1 -/

/-- C1: whenever the provider has at least one walk-in entry (position > 0),
`call_next` removes and returns a walk-in with the lowest position (so
walk-ins are dispatched in FIFO position order), and no scheduled
(position = 0) entry is touched.  Row ids are assumed distinct, as the
`AUTOINCREMENT` primary key guarantees. -/
theorem c1_call_next_prefers_walkin (s : Store) (pid : Nat)
    (hnodup : (s.queues.map (·.id)).Nodup)
    (hex : ∃ r ∈ s.queues, r.providerId = pid ∧ 0 < r.position) :
    ∃ w ∈ s.queues, w.providerId = pid ∧ 0 < w.position ∧
      (∀ e ∈ s.queues, e.providerId = pid → 0 < e.position →
        w.position ≤ e.position) ∧
      (call_next s pid).1 = .walkIn w.userId w.serviceId ∧
      (call_next s pid).2.queues = s.queues.filter (fun x => !(x.id == w.id)) ∧
      (call_next s pid).2.queues.filter (fun r => r.position == 0) =
        s.queues.filter (fun r => r.position == 0) ∧
      (call_next s pid).2.providers = s.providers ∧
      (call_next s pid).2.services = s.services ∧
      (call_next s pid).2.busyTimes = s.busyTimes := by
  have hne : s.queues.filter
      (fun r => r.providerId == pid && decide (0 < r.position)) ≠ [] := by
    obtain ⟨r, hr, hpid, hpos⟩ := hex
    intro h0
    have hmem : r ∈ s.queues.filter
        (fun r => r.providerId == pid && decide (0 < r.position)) :=
      List.mem_filter.mpr ⟨hr, by simp [hpid, hpos]⟩
    rw [h0] at hmem
    simp at hmem
  obtain ⟨w, hw⟩ : ∃ w, selectMin walkInLtB
      (s.queues.filter (fun r => r.providerId == pid && decide (0 < r.position)))
        = some w := by
    cases hsel : selectMin walkInLtB
        (s.queues.filter (fun r => r.providerId == pid && decide (0 < r.position))) with
    | none => exact absurd (selectMin_eq_none.mp hsel) hne
    | some w => exact ⟨w, rfl⟩
  have hwmem := selectMin_mem hw
  have hwq : w ∈ s.queues := (List.mem_filter.mp hwmem).1
  have hwp : w.providerId = pid ∧ 0 < w.position := by
    have := (List.mem_filter.mp hwmem).2
    simpa using this
  have hmin := selectMin_min walkInLtB_irrefl walkInLtB_asym walkInLtB_neg_trans hw
  have hpop : pop_next_in_queue s pid false =
      (some w, { s with queues := s.queues.filter (fun x => !(x.id == w.id)) }) := by
    simp [pop_next_in_queue, hw]
  have hcall : call_next s pid =
      (.walkIn w.userId w.serviceId,
        { s with queues := s.queues.filter (fun x => !(x.id == w.id)) }) := by
    unfold call_next
    rw [hpop]
  refine ⟨w, hwq, hwp.1, hwp.2, ?_, ?_, ?_, ?_, ?_, ?_, ?_⟩
  · intro e he hpid hpos
    have hemem : e ∈ s.queues.filter
        (fun r => r.providerId == pid && decide (0 < r.position)) :=
      List.mem_filter.mpr ⟨he, by simp [hpid, hpos]⟩
    have := hmin e hemem
    simp only [walkInLtB, decide_eq_false_iff_not, not_lt] at this
    exact this
  · rw [hcall]
  · rw [hcall]
  · rw [hcall]
    simp only [List.filter_filter]
    apply List.filter_congr
    intro a ha
    by_cases h0 : (a.position == 0) = true
    · have hne' : a.id ≠ w.id := by
        intro heq
        have : a = w := List.inj_on_of_nodup_map hnodup ha hwq heq
        rw [this] at h0
        simp at h0
        omega
      simp [h0, hne']
    · simp only [Bool.not_eq_true] at h0
      simp [h0]
  · rw [hcall]
  · rw [hcall]
  · rw [hcall]

/-- Concrete store for the C1 witness: a scheduled entry (row 1) that sorts
before today plus walk-ins at positions 2 and 1 (rows 2 and 3). -/
def c1Store : Store :=
  ⟨[⟨1, 100, "P", "r"⟩], [⟨5, 1, "Haircut"⟩],
    [⟨1, 1, 20, 5, 0, some "2020-01-01", some "09:00"⟩,
     ⟨2, 1, 10, 5, 2, none, none⟩,
     ⟨3, 1, 11, 5, 1, none, none⟩],
    [], 2, 6, 4, 1⟩

/-- C1 witness: on `c1Store` the dispatched client is the walk-in with
position 1, not the (older) scheduled entry. -/
theorem c1_call_next_prefers_walkin_witness :
    ∃ w ∈ c1Store.queues, w.providerId = 1 ∧ 0 < w.position ∧
      (∀ e ∈ c1Store.queues, e.providerId = 1 → 0 < e.position →
        w.position ≤ e.position) ∧
      (call_next c1Store 1).1 = .walkIn w.userId w.serviceId ∧
      (call_next c1Store 1).2.queues =
        c1Store.queues.filter (fun x => !(x.id == w.id)) ∧
      (call_next c1Store 1).2.queues.filter (fun r => r.position == 0) =
        c1Store.queues.filter (fun r => r.position == 0) ∧
      (call_next c1Store 1).2.providers = c1Store.providers ∧
      (call_next c1Store 1).2.services = c1Store.services ∧
      (call_next c1Store 1).2.busyTimes = c1Store.busyTimes :=
  c1_call_next_prefers_walkin c1Store 1 (by decide)
    ⟨⟨3, 1, 11, 5, 1, none, none⟩, by decide, by decide, by decide⟩

/-! ## Claim C6 -/

/-- C6: when the provider has no walk-in (position > 0) entries, `call_next`
removes and returns the entry minimal in the `(date, time)` ordering among
ALL of the provider's scheduled entries (no filtering to today/future:
`schedLtB e w = false` for every entry `e`, i.e. no entry — past dates
included — sorts strictly before the popped one); if the provider has no
entries at all, it reports the empty queue as a normal result and leaves the
store unchanged. -/
theorem c6_call_next_scheduled (s : Store) (pid : Nat)
    (hnowalk : ∀ r ∈ s.queues, r.providerId = pid → r.position = 0)
    (hwf : ∀ r ∈ s.queues, r.providerId = pid → r.date ≠ none ∧ r.time ≠ none) :
    ((¬ ∃ r ∈ s.queues, r.providerId = pid) →
      (call_next s pid).1 = .emptyQueue ∧ (call_next s pid).2 = s) ∧
    ((∃ r ∈ s.queues, r.providerId = pid) →
      ∃ w ∈ s.queues, w.providerId = pid ∧ w.position = 0 ∧
        w.date ≠ none ∧ w.time ≠ none ∧
        (∀ e ∈ s.queues, e.providerId = pid → schedLtB e w = false) ∧
        (call_next s pid).1 = .scheduled w.userId w.serviceId w.date w.time ∧
        (call_next s pid).2.queues = s.queues.filter (fun x => !(x.id == w.id))) := by
  have hwfilter : s.queues.filter
      (fun r => r.providerId == pid && decide (0 < r.position)) = [] := by
    rw [List.filter_eq_nil_iff]
    intro r hr
    simp only [Bool.and_eq_true, beq_iff_eq, decide_eq_true_eq, not_and]
    intro hpid
    have := hnowalk r hr hpid
    omega
  have hpop1 : pop_next_in_queue s pid false = (none, s) := by
    simp [pop_next_in_queue, hwfilter, selectMin]
  constructor
  · intro hno
    have hempty : s.queues.filter (fun r => r.providerId == pid) = [] := by
      rw [List.filter_eq_nil_iff]
      intro r hr
      simp only [beq_iff_eq]
      exact fun hpid => hno ⟨r, hr, hpid⟩
    have hpop2 : pop_next_in_queue s pid true = (none, s) := by
      simp [pop_next_in_queue, hempty, selectMin]
    constructor
    · unfold call_next
      rw [hpop1, hpop2]
    · unfold call_next
      rw [hpop1, hpop2]
  · rintro ⟨r, hr, hpid⟩
    have hne : s.queues.filter (fun r => r.providerId == pid) ≠ [] := by
      intro h0
      have hmem : r ∈ s.queues.filter (fun r => r.providerId == pid) :=
        List.mem_filter.mpr ⟨hr, by simp [hpid]⟩
      rw [h0] at hmem
      simp at hmem
    obtain ⟨w, hw⟩ : ∃ w, selectMin schedLtB
        (s.queues.filter (fun r => r.providerId == pid)) = some w := by
      cases hsel : selectMin schedLtB
          (s.queues.filter (fun r => r.providerId == pid)) with
      | none => exact absurd (selectMin_eq_none.mp hsel) hne
      | some w => exact ⟨w, rfl⟩
    have hwmem := selectMin_mem hw
    have hwq : w ∈ s.queues := (List.mem_filter.mp hwmem).1
    have hwpid : w.providerId = pid := by
      have := (List.mem_filter.mp hwmem).2
      simpa using this
    have hmin := selectMin_min schedLtB_irrefl schedLtB_asym schedLtB_neg_trans hw
    have hpop2 : pop_next_in_queue s pid true =
        (some w, { s with queues := s.queues.filter (fun x => !(x.id == w.id)) }) := by
      simp [pop_next_in_queue, hw]
    have hcall : call_next s pid =
        (.scheduled w.userId w.serviceId w.date w.time,
          { s with queues := s.queues.filter (fun x => !(x.id == w.id)) }) := by
      unfold call_next
      rw [hpop1, hpop2]
    refine ⟨w, hwq, hwpid, hnowalk w hwq hwpid, (hwf w hwq hwpid).1,
      (hwf w hwq hwpid).2, ?_, ?_, ?_⟩
    · intro e he hepid
      exact hmin e (List.mem_filter.mpr ⟨he, by simp [hepid]⟩)
    · rw [hcall]
    · rw [hcall]

/-- Concrete store for the C6 witness: two scheduled entries, one with a past
date, no walk-ins. -/
def c6Store : Store :=
  ⟨[⟨1, 100, "P", "r"⟩], [⟨5, 1, "Haircut"⟩],
    [⟨1, 1, 20, 5, 0, some "2025-08-25", some "10:00"⟩,
     ⟨2, 1, 21, 5, 0, some "2020-01-01", some "09:00"⟩],
    [], 2, 6, 3, 1⟩

/-- C6 witness: `call_next` on `c6Store` pops the chronologically earliest
scheduled entry (the past-dated one). -/
theorem c6_call_next_scheduled_witness :
    ((¬ ∃ r ∈ c6Store.queues, r.providerId = 1) →
      (call_next c6Store 1).1 = .emptyQueue ∧ (call_next c6Store 1).2 = c6Store) ∧
    ((∃ r ∈ c6Store.queues, r.providerId = 1) →
      ∃ w ∈ c6Store.queues, w.providerId = 1 ∧ w.position = 0 ∧
        w.date ≠ none ∧ w.time ≠ none ∧
        (∀ e ∈ c6Store.queues, e.providerId = 1 → schedLtB e w = false) ∧
        (call_next c6Store 1).1 = .scheduled w.userId w.serviceId w.date w.time ∧
        (call_next c6Store 1).2.queues =
          c6Store.queues.filter (fun x => !(x.id == w.id))) :=
  c6_call_next_scheduled c6Store 1 (by decide) (by decide)

/-! ## Claim C9 -/

/-- The two legal shapes of a queue entry: a walk-in (`position > 0`, NULL
date and time) or a scheduled entry (`position = 0`, date and time set). -/
def wfRow (r : QueueRow) : Prop :=
  (0 < r.position ∧ r.date = none ∧ r.time = none) ∨
  (r.position = 0 ∧ r.date ≠ none ∧ r.time ≠ none)

instance : DecidablePred wfRow := fun r => by
  unfold wfRow
  infer_instance

/-- Every row of a queue table fragment is well-shaped. -/
def wfQueues (l : List QueueRow) : Prop := ∀ r ∈ l, wfRow r

instance (l : List QueueRow) : Decidable (wfQueues l) := by
  unfold wfQueues
  exact List.decidableBAll _ _

theorem wfQueues_filter {l : List QueueRow} (p : QueueRow → Bool)
    (h : wfQueues l) : wfQueues (l.filter p) :=
  fun r hr => h r (List.mem_filter.mp hr).1

theorem truthy_ne_none {d : Option String} (h : truthy d = true) : d ≠ none := by
  cases d with
  | none => simp [truthy] at h
  | some s => simp

theorem wfQueues_add_to_queue (s : Store) (pid userId serviceId : Nat)
    (d t : Option String) (h : wfQueues s.queues) :
    wfQueues (add_to_queue s pid userId serviceId d t).2.queues := by
  unfold add_to_queue
  by_cases hc : (truthy d && truthy t) = true
  · rw [if_pos hc]
    intro r hr
    rcases List.mem_append.mp hr with h1 | h2
    · exact h r h1
    · simp only [List.mem_singleton] at h2
      rw [h2]
      right
      have hd := truthy_ne_none (Bool.and_elim_left hc)
      have ht := truthy_ne_none (Bool.and_elim_right hc)
      exact ⟨rfl, hd, ht⟩
  · rw [if_neg hc]
    intro r hr
    rcases List.mem_append.mp hr with h1 | h2
    · exact h r h1
    · simp only [List.mem_singleton] at h2
      rw [h2]
      left
      exact ⟨Nat.succ_pos _, rfl, rfl⟩

theorem pop_queues_cases (s : Store) (pid : Nat) (b : Bool) :
    (pop_next_in_queue s pid b).2.queues = s.queues ∨
    ∃ rid, (pop_next_in_queue s pid b).2.queues =
      s.queues.filter (fun x => !(x.id == rid)) := by
  unfold pop_next_in_queue
  split
  · right
    exact ⟨_, rfl⟩
  · left
    rfl

theorem wfQueues_pop (s : Store) (pid : Nat) (b : Bool)
    (h : wfQueues s.queues) : wfQueues (pop_next_in_queue s pid b).2.queues := by
  rcases pop_queues_cases s pid b with hc | ⟨rid, hc⟩ <;> rw [hc]
  · exact h
  · exact wfQueues_filter _ h

theorem wfQueues_call_next (s : Store) (pid : Nat)
    (h : wfQueues s.queues) : wfQueues (call_next s pid).2.queues := by
  unfold call_next
  cases hp1 : pop_next_in_queue s pid false with
  | mk o1 s1 =>
    cases o1 with
    | some r =>
      have := wfQueues_pop s pid false h
      rw [hp1] at this
      exact this
    | none =>
      cases hp2 : pop_next_in_queue s pid true with
      | mk o2 s2 =>
        have hwf2 : wfQueues s2.queues := by
          have := wfQueues_pop s pid true h
          rw [hp2] at this
          exact this
        cases o2 with
        | some r => exact hwf2
        | none => exact hwf2

theorem wfQueues_client_book_slot (s : Store) (pid userId serviceId : Nat)
    (d t : String) (h : wfQueues s.queues) :
    wfQueues (client_book_slot s pid userId serviceId d t).2.queues := by
  unfold client_book_slot
  by_cases hc : (get_booked_slots s pid d).contains t = true
  · rw [if_pos hc]
    exact h
  · rw [if_neg hc]
    exact wfQueues_add_to_queue s pid userId serviceId (some d) (some t) h

theorem maxWalkInPos_ignores_scheduled (qs : List QueueRow) (pid : Nat)
    (r : QueueRow) (h : r.position = 0) :
    maxWalkInPos (qs ++ [r]) pid = maxWalkInPos qs pid := by
  unfold maxWalkInPos
  rw [List.filter_append]
  have hnil : List.filter
      (fun x => x.providerId == pid && decide (0 < x.position)) [r] = [] := by
    simp [h]
  rw [hnil, List.append_nil]

/-- C9: from any store whose queue rows are well-shaped, every operation on
the queue keeps every row in exactly one of the two modes (`wfRow`: walk-in
with position > 0 and NULL date/time, or scheduled with position = 0 and
non-null date/time); the enqueue operations create exactly such rows; and
scheduled rows are never counted when computing the next walk-in position
(appending a position-0 row leaves `maxWalkInPos` unchanged). -/
theorem c9_mode_invariant (s : Store) (hwf : wfQueues s.queues) :
    (∀ pid userId serviceId d t,
      wfQueues (add_to_queue s pid userId serviceId d t).2.queues) ∧
    (∀ pid b, wfQueues (pop_next_in_queue s pid b).2.queues) ∧
    (∀ pid, wfQueues (call_next s pid).2.queues) ∧
    (∀ pid userId serviceId d t,
      wfQueues (client_book_slot s pid userId serviceId d t).2.queues) ∧
    (∀ pid, wfQueues (clear_queue s pid).queues) ∧
    (∀ pid, wfQueues (delete_provider s pid).queues) ∧
    (∀ pid userId serviceId, ∃ r,
      (add_to_queue s pid userId serviceId none none).2.queues =
        s.queues ++ [r] ∧ 0 < r.position ∧ r.date = none ∧ r.time = none) ∧
    (∀ pid userId serviceId d t, truthy d = true → truthy t = true → ∃ r,
      (add_to_queue s pid userId serviceId d t).2.queues =
        s.queues ++ [r] ∧ r.position = 0 ∧ r.date = d ∧ r.time = t) ∧
    (∀ qs pid (r : QueueRow), r.position = 0 →
      maxWalkInPos (qs ++ [r]) pid = maxWalkInPos qs pid) := by
  refine ⟨fun pid u sv d t => wfQueues_add_to_queue s pid u sv d t hwf,
    fun pid b => wfQueues_pop s pid b hwf,
    fun pid => wfQueues_call_next s pid hwf,
    fun pid u sv d t => wfQueues_client_book_slot s pid u sv d t hwf,
    fun pid => wfQueues_filter _ hwf,
    fun pid => wfQueues_filter _ hwf,
    ?_, ?_, fun qs pid r h => maxWalkInPos_ignores_scheduled qs pid r h⟩
  · intro pid u sv
    refine ⟨⟨s.nextQueueId, pid, u, sv, maxWalkInPos s.queues pid + 1,
      none, none⟩, ?_, Nat.succ_pos _, rfl, rfl⟩
    simp [add_to_queue, truthy]
  · intro pid u sv d t hd ht
    refine ⟨⟨s.nextQueueId, pid, u, sv, 0, d, t⟩, ?_, rfl, rfl, rfl⟩
    simp [add_to_queue, hd, ht]

/-- C9 witness: the invariant theorem applied to a concrete well-shaped
store (one walk-in and one scheduled entry). -/
theorem c9_mode_invariant_witness :
    wfQueues c1Store.queues ∧
    ((∀ pid userId serviceId d t,
      wfQueues (add_to_queue c1Store pid userId serviceId d t).2.queues) ∧
    (∀ pid b, wfQueues (pop_next_in_queue c1Store pid b).2.queues) ∧
    (∀ pid, wfQueues (call_next c1Store pid).2.queues) ∧
    (∀ pid userId serviceId d t,
      wfQueues (client_book_slot c1Store pid userId serviceId d t).2.queues) ∧
    (∀ pid, wfQueues (clear_queue c1Store pid).queues) ∧
    (∀ pid, wfQueues (delete_provider c1Store pid).queues) ∧
    (∀ pid userId serviceId, ∃ r,
      (add_to_queue c1Store pid userId serviceId none none).2.queues =
        c1Store.queues ++ [r] ∧ 0 < r.position ∧ r.date = none ∧ r.time = none) ∧
    (∀ pid userId serviceId d t, truthy d = true → truthy t = true → ∃ r,
      (add_to_queue c1Store pid userId serviceId d t).2.queues =
        c1Store.queues ++ [r] ∧ r.position = 0 ∧ r.date = d ∧ r.time = t) ∧
    (∀ qs pid (r : QueueRow), r.position = 0 →
      maxWalkInPos (qs ++ [r]) pid = maxWalkInPos qs pid)) :=
  ⟨by decide, c9_mode_invariant c1Store (by decide)⟩

/-! ## Claim C8 -/

/-- C8: deleting a provider removes its provider row, all of its services,
all of its queue entries and all of its busy blocks (none remain queryable),
while every row belonging to any other provider `q` is left untouched.  The
hypothesis `hsvc` is the referential sanity of reachable stores: a queue
entry references a service of its own provider (otherwise SQLite's cascade
through `services` would also delete a foreign queue row). -/
theorem c8_delete_provider_cascade (s : Store) (pid q : Nat) (hq : q ≠ pid)
    (hsvc : ∀ e ∈ s.queues, ∀ sv ∈ s.services, sv.id = e.serviceId →
      sv.providerId = e.providerId) :
    ((delete_provider s pid).providers.filter (fun p => p.id == pid) = [] ∧
     (delete_provider s pid).services.filter (fun sv => sv.providerId == pid) = [] ∧
     (delete_provider s pid).queues.filter (fun r => r.providerId == pid) = [] ∧
     (delete_provider s pid).busyTimes.filter (fun b => b.providerId == pid) = []) ∧
    ((delete_provider s pid).providers.filter (fun p => p.id == q) =
        s.providers.filter (fun p => p.id == q) ∧
     (delete_provider s pid).services.filter (fun sv => sv.providerId == q) =
        s.services.filter (fun sv => sv.providerId == q) ∧
     (delete_provider s pid).queues.filter (fun r => r.providerId == q) =
        s.queues.filter (fun r => r.providerId == q) ∧
     (delete_provider s pid).busyTimes.filter (fun b => b.providerId == q) =
        s.busyTimes.filter (fun b => b.providerId == q)) := by
  unfold delete_provider
  have hz : ((q : Nat) == pid) = false := beq_eq_false_iff_ne.mpr hq
  refine ⟨⟨?_, ?_, ?_, ?_⟩, ?_, ?_, ?_, ?_⟩
  · rw [List.filter_filter, List.filter_eq_nil_iff]
    intro a _
    simp
  · rw [List.filter_filter, List.filter_eq_nil_iff]
    intro a _
    simp
  · rw [List.filter_filter, List.filter_eq_nil_iff]
    intro a _
    simp
    intro h1 h2
    exact absurd h1 h2
  · rw [List.filter_filter, List.filter_eq_nil_iff]
    intro a _
    simp
  · rw [List.filter_filter]
    apply List.filter_congr
    intro a _
    by_cases h : a.id = q
    · simp [h, hz]
    · simp [h]
  · rw [List.filter_filter]
    apply List.filter_congr
    intro a _
    by_cases h : a.providerId = q
    · simp [h, hz]
    · simp [h]
  · rw [List.filter_filter]
    apply List.filter_congr
    intro e he
    by_cases h : e.providerId = q
    · have h2 : (s.services.filter (fun sv => sv.providerId == pid)).any
          (fun sv => sv.id == e.serviceId) = false := by
        rw [List.any_eq_false]
        intro sv hsv
        simp only [beq_iff_eq]
        intro hid
        have hsvq := hsvc e he sv (List.mem_filter.mp hsv).1 hid
        have hsvpid : sv.providerId = pid := by
          have := (List.mem_filter.mp hsv).2
          simpa using this
        rw [hsvpid, h] at hsvq
        exact hq hsvq.symm
      simp only [List.any_filter] at h2
      simp [h, hz, h2]
    · simp [h]
  · rw [List.filter_filter]
    apply List.filter_congr
    intro a _
    by_cases h : a.providerId = q
    · simp [h, hz]
    · simp [h]

/-- Concrete store for the C8 witness: two providers each with a service, a
queue entry and a busy block. -/
def c8Store : Store :=
  ⟨[⟨1, 100, "P", "r"⟩, ⟨2, 200, "Q", "r2"⟩],
    [⟨5, 1, "Haircut"⟩, ⟨6, 2, "Shave"⟩],
    [⟨1, 1, 10, 5, 1, none, none⟩, ⟨2, 2, 20, 6, 0, some "2025-08-25", some "10:00"⟩],
    [⟨1, 1, "2025-08-25", "09:00"⟩, ⟨2, 2, "2025-08-25", "11:00"⟩],
    3, 7, 3, 3⟩

/-- C8 witness: deleting provider 1 in `c8Store` purges its rows and keeps
provider 2's rows. -/
theorem c8_delete_provider_cascade_witness :
    (((delete_provider c8Store 1).providers.filter (fun p => p.id == 1) = [] ∧
      (delete_provider c8Store 1).services.filter (fun sv => sv.providerId == 1) = [] ∧
      (delete_provider c8Store 1).queues.filter (fun r => r.providerId == 1) = [] ∧
      (delete_provider c8Store 1).busyTimes.filter (fun b => b.providerId == 1) = []) ∧
     ((delete_provider c8Store 1).providers.filter (fun p => p.id == 2) =
        c8Store.providers.filter (fun p => p.id == 2) ∧
      (delete_provider c8Store 1).services.filter (fun sv => sv.providerId == 2) =
        c8Store.services.filter (fun sv => sv.providerId == 2) ∧
      (delete_provider c8Store 1).queues.filter (fun r => r.providerId == 2) =
        c8Store.queues.filter (fun r => r.providerId == 2) ∧
      (delete_provider c8Store 1).busyTimes.filter (fun b => b.providerId == 2) =
        c8Store.busyTimes.filter (fun b => b.providerId == 2))) :=
  c8_delete_provider_cascade c8Store 1 2 (by decide) (by decide)

/-! ## Claim C2 -/

theorem showQueueLe_iff (a b : QueueRow) : showQueueLe a b ↔
    a.position < b.position ∨ (a.position = b.position ∧
      (optStrLtB a.date b.date = true ∨ (a.date = b.date ∧
        (optStrLtB a.time b.time = true ∨ a.time = b.time)))) := by
  unfold showQueueLe
  simp [Bool.or_eq_true, Bool.and_eq_true, beq_iff_eq, decide_eq_true_eq]

theorem optStrLtB_trans (a b c : Option String) :
    optStrLtB a b = true → optStrLtB b c = true → optStrLtB a c = true := by
  cases a <;> cases b <;> cases c <;> simp [optStrLtB]
  intro h1 h2
  exact lt_trans h1 h2

instance : IsTotal QueueRow showQueueLe := by
  constructor
  intro a b
  rw [showQueueLe_iff, showQueueLe_iff]
  rcases Nat.lt_trichotomy a.position b.position with h | h | h
  · exact Or.inl (Or.inl h)
  · rcases optStrLtB_trichotomy a.date b.date with hd | hd | hd
    · exact Or.inl (Or.inr ⟨h, Or.inl hd⟩)
    · rcases optStrLtB_trichotomy a.time b.time with ht | ht | ht
      · exact Or.inl (Or.inr ⟨h, Or.inr ⟨hd, Or.inl ht⟩⟩)
      · exact Or.inl (Or.inr ⟨h, Or.inr ⟨hd, Or.inr ht⟩⟩)
      · exact Or.inr (Or.inr ⟨h.symm, Or.inr ⟨hd.symm, Or.inl ht⟩⟩)
    · exact Or.inr (Or.inr ⟨h.symm, Or.inl hd⟩)
  · exact Or.inr (Or.inl h)

instance : IsTrans QueueRow showQueueLe := by
  constructor
  intro a b c hab hbc
  rw [showQueueLe_iff] at *
  rcases hab with h1 | ⟨hp1, hd1⟩
  · rcases hbc with h2 | ⟨hp2, _⟩
    · exact Or.inl (lt_trans h1 h2)
    · exact Or.inl (hp2 ▸ h1)
  · rcases hbc with h2 | ⟨hp2, hd2⟩
    · exact Or.inl (hp1 ▸ h2)
    · refine Or.inr ⟨hp1.trans hp2, ?_⟩
      rcases hd1 with hdl1 | ⟨hde1, ht1⟩
      · rcases hd2 with hdl2 | ⟨hde2, _⟩
        · exact Or.inl (optStrLtB_trans _ _ _ hdl1 hdl2)
        · exact Or.inl (hde2 ▸ hdl1)
      · rcases hd2 with hdl2 | ⟨hde2, ht2⟩
        · exact Or.inl (hde1 ▸ hdl2)
        · refine Or.inr ⟨hde1.trans hde2, ?_⟩
          rcases ht1 with htl1 | hte1
          · rcases ht2 with htl2 | hte2
            · exact Or.inl (optStrLtB_trans _ _ _ htl1 htl2)
            · exact Or.inl (hte2 ▸ htl1)
          · rcases ht2 with htl2 | hte2
            · exact Or.inl (hte1 ▸ htl2)
            · exact Or.inr (hte1.trans hte2)

/-- Concrete store for the C2 counterexample: provider 1 has one walk-in
(inserted first, row id 1) and one scheduled entry (row id 2). -/
def c2Store : Store :=
  ⟨[⟨1, 100, "P", "r"⟩], [⟨5, 1, "Haircut"⟩],
    [⟨1, 1, 10, 5, 1, none, none⟩,
     ⟨2, 1, 20, 5, 0, some "2025-08-25", some "10:00"⟩],
    [], 2, 6, 3, 1⟩

/-- C2 counterexample: `ORDER BY position ASC` puts the sentinel
`position = 0` FIRST, so the scheduled entry precedes the walk-in in the
listing — refuting "all position>0 entries precede all scheduled entries". -/
theorem c2_counterexample :
    (⟨1, 1, 10, 5, 1, none, none⟩ : QueueRow) ∈ c2Store.queues ∧
    0 < (⟨1, 1, 10, 5, 1, none, none⟩ : QueueRow).position ∧
    (⟨2, 1, 20, 5, 0, some "2025-08-25", some "10:00"⟩ : QueueRow) ∈ c2Store.queues ∧
    (⟨2, 1, 20, 5, 0, some "2025-08-25", some "10:00"⟩ : QueueRow).position = 0 ∧
    show_queue c2Store 1 =
      [⟨2, 1, 20, 5, 0, some "2025-08-25", some "10:00"⟩,
       ⟨1, 1, 10, 5, 1, none, none⟩] := by
  refine ⟨by decide, by decide, by decide, by decide, ?_⟩
  rfl

/-- C2 (amended): `show_queue` returns exactly the provider's entries
(a permutation of them) ordered so that all scheduled (`position = 0`)
entries precede all walk-ins; scheduled entries among themselves are
ascending by `(date, time)` and walk-ins ascending by `position`. -/
theorem c2_listAll_order (s : Store) (pid : Nat) :
    (show_queue s pid).Perm (s.queues.filter (fun r => r.providerId == pid)) ∧
    (show_queue s pid).Pairwise (fun a b =>
      (a.position = 0 ∧ b.position = 0 ∧
        (optStrLtB a.date b.date = true ∨ (a.date = b.date ∧
          (optStrLtB a.time b.time = true ∨ a.time = b.time)))) ∨
      (a.position = 0 ∧ 0 < b.position) ∨
      (0 < a.position ∧ 0 < b.position ∧ a.position ≤ b.position)) := by
  constructor
  · exact List.perm_insertionSort showQueueLe _
  · have hs : (show_queue s pid).Pairwise showQueueLe :=
      List.sorted_insertionSort showQueueLe _
    refine hs.imp ?_
    intro a b h
    rw [showQueueLe_iff] at h
    rcases h with hlt | ⟨heq, hdt⟩
    · by_cases ha : a.position = 0
      · exact Or.inr (Or.inl ⟨ha, by omega⟩)
      · exact Or.inr (Or.inr ⟨by omega, by omega, by omega⟩)
    · by_cases ha : a.position = 0
      · exact Or.inl ⟨ha, by omega, hdt⟩
      · exact Or.inr (Or.inr ⟨by omega, by omega, by omega⟩)

/-! ## Claim C5 -/

theorem slotGrid_eq :
    slotGrid = ["09:00", "09:30", "10:00", "10:30", "11:00", "11:30",
      "12:00", "12:30", "13:00", "13:30", "14:00", "14:30", "15:00", "15:30",
      "16:00", "16:30", "17:00"] := by decide

theorem slotGrid_ne_empty_string : ∀ x ∈ slotGrid, x ≠ "" := by decide

theorem get_booked_slots_after_book (s : Store) (pid userId serviceId : Nat)
    (d t : String) (hd : d ≠ "") (ht : t ≠ "") :
    get_booked_slots (add_to_queue s pid userId serviceId (some d) (some t)).2 pid d =
      (s.queues.filterMap (fun r =>
        if r.providerId == pid && r.date == some d && !(r.time == none)
        then r.time else none) ++ [t]) ++
      ((s.busyTimes.filter (fun b => b.providerId == pid && b.date == d)).map
        (·.time)) := by
  have hbr : (truthy (some d) && truthy (some t)) = true := by
    simp [truthy, hd, ht]
  unfold add_to_queue
  rw [if_pos hbr]
  unfold get_booked_slots
  simp [List.filterMap_append]

/-- C5: the availability grid of `client_pick_date` is the fixed 17-slot
half-hour grid 09:00 … 17:00 (17:30 excluded); no offered slot is booked;
and booking an offered slot `t` succeeds and removes exactly `t` from the
subsequently offered slots. -/
theorem c5_available_slots (s : Store) (pid userId serviceId : Nat)
    (d t : String) (hd : d ≠ "") (ht : t ∈ client_pick_date s pid d) :
    slotGrid = ["09:00", "09:30", "10:00", "10:30", "11:00", "11:30",
      "12:00", "12:30", "13:00", "13:30", "14:00", "14:30", "15:00", "15:30",
      "16:00", "16:30", "17:00"] ∧
    (∀ x ∈ client_pick_date s pid d, x ∉ get_booked_slots s pid d) ∧
    (client_book_slot s pid userId serviceId d t).1 = .booked ∧
    client_pick_date (client_book_slot s pid userId serviceId d t).2 pid d =
      (client_pick_date s pid d).filter (fun x => !(x == t)) := by
  have hnotbooked : ∀ x ∈ client_pick_date s pid d,
      x ∉ get_booked_slots s pid d := by
    intro x hx
    have := (List.mem_filter.mp hx).2
    simpa using this
  have htg : t ∈ slotGrid := (List.mem_filter.mp ht).1
  have htne : t ≠ "" := slotGrid_ne_empty_string t htg
  have htnb : t ∉ get_booked_slots s pid d := hnotbooked t ht
  have hcont : (get_booked_slots s pid d).contains t = false := by
    simpa using htnb
  have hbook : (client_book_slot s pid userId serviceId d t).2 =
      (add_to_queue s pid userId serviceId (some d) (some t)).2 := by
    simp [client_book_slot, htnb]
  refine ⟨slotGrid_eq, hnotbooked, by simp [client_book_slot, htnb], ?_⟩
  rw [hbook]
  unfold client_pick_date
  rw [List.filter_filter]
  apply List.filter_congr
  intro a _
  rw [get_booked_slots_after_book s pid userId serviceId d t hd htne]
  have hXm : a ∈ get_booked_slots s pid d ↔
      (a ∈ s.queues.filterMap (fun r =>
        if r.providerId == pid && r.date == some d && !(r.time == none)
        then r.time else none) ∨
       a ∈ (s.busyTimes.filter (fun b => b.providerId == pid && b.date == d)).map
        (·.time)) := by
    unfold get_booked_slots
    exact List.mem_append
  have hX : ((s.queues.filterMap (fun r =>
        if r.providerId == pid && r.date == some d && !(r.time == none)
        then r.time else none) ++ [t]) ++
        ((s.busyTimes.filter (fun b => b.providerId == pid && b.date == d)).map
          (·.time))).contains a =
      ((a == t) || (get_booked_slots s pid d).contains a) := by
    rw [Bool.eq_iff_iff]
    constructor
    · intro h
      have hm := List.elem_iff.mp h
      simp only [List.mem_append, List.mem_singleton] at hm
      simp only [Bool.or_eq_true, beq_iff_eq]
      rcases hm with (hA | hT) | hB
      · exact Or.inr (List.elem_iff.mpr (hXm.mpr (Or.inl hA)))
      · exact Or.inl hT
      · exact Or.inr (List.elem_iff.mpr (hXm.mpr (Or.inr hB)))
    · intro h
      simp only [Bool.or_eq_true, beq_iff_eq] at h
      apply List.elem_iff.mpr
      simp only [List.mem_append, List.mem_singleton]
      rcases h with hT | hC
      · exact Or.inl (Or.inr hT)
      · rcases hXm.mp (List.elem_iff.mp hC) with hA | hB
        · exact Or.inl (Or.inl hA)
        · exact Or.inr hB
  rw [hX, Bool.not_or]

/-- C5 witness: booking 10:00 on 2025-08-25 for provider 1 in a fresh store
succeeds and removes exactly that slot from the offered grid. -/
theorem c5_available_slots_witness :
    slotGrid = ["09:00", "09:30", "10:00", "10:30", "11:00", "11:30",
      "12:00", "12:30", "13:00", "13:30", "14:00", "14:30", "15:00", "15:30",
      "16:00", "16:30", "17:00"] ∧
    (∀ x ∈ client_pick_date c3Store 1 "2025-08-25",
      x ∉ get_booked_slots c3Store 1 "2025-08-25") ∧
    (client_book_slot c3Store 1 30 5 "2025-08-25" "10:00").1 = .booked ∧
    client_pick_date (client_book_slot c3Store 1 30 5 "2025-08-25" "10:00").2
        1 "2025-08-25" =
      (client_pick_date c3Store 1 "2025-08-25").filter (fun x => !(x == "10:00")) :=
  c5_available_slots c3Store 1 30 5 "2025-08-25" "10:00" (by decide) (by decide)

end Navbat
